import Mathlib

/-!
Shallow embedding of the text/table extraction pipeline of the doc-ocr-scanner
repository (src/scanner/v1.0.0/search_utils.py, src/scanner/v1.0.0/ocr_utils.py,
src/test_scanner_ver/general_utils.py), together with theorems settling the
frozen claims about it.

Modelling conventions:
- Python strings are Lean `String`s; scanning is done on `List Char`.
- Python `None` is `Option.none`; Python truthiness of a string value
  (`if s:`) is `s ≠ ""` on `some s` and false on `none`.
- Python floats are modelled exactly: finite values as rationals, plus
  infinities and nan (`PyFloat`); all values occurring in the claims are
  exact decimal fractions, where double rounding plays no role.
- `Char.toLower` / `Char.isAlpha` / `Char.isDigit` are ASCII, modelling the
  ASCII fragment of Python case folding and of the character classes
  `\d`, `\w`, `[A-Za-z]`; all texts in the claims are ASCII.
- The Python `re` engine applied to the *user-supplied* custom patterns from
  the configuration (an external input of the program) is treated as a
  black box: a function `findall : P → String → List String` passed as a
  parameter, returning for a pattern the list of captured groups of all
  matches, exactly as `re.findall` does for a one-group pattern.  The
  regexes that are *fixed in the source* (the proximity-heuristic regexes of
  `searching`, and the serial-label regex of `serial_number`) are implemented
  concretely, following the leftmost/greedy backtracking semantics of `re`.
-/

/-- ASCII whitespace, the fragment of Python `\s` used by the claims. -/
def isWsChar (c : Char) : Bool :=
  c = ' ' || c = '\t' || c = '\n' || c = '\r' || c = '\x0b' || c = '\x0c'

/-- The separator class `[\s:=-]` of `searching` (search_utils.py line 29). -/
def isSepChar (c : Char) : Bool :=
  isWsChar c || c = ':' || c = '=' || c = '-'

/-- ASCII lowercase of a character list (Python `.lower()` / `re.IGNORECASE`). -/
def lowerL (l : List Char) : List Char := l.map Char.toLower

/-- Python `str.lower()` (ASCII fragment). -/
def pyLower (s : String) : String := String.mk (lowerL s.data)

/-- Python `str.strip()` (ASCII whitespace fragment). -/
def pyStrip (s : String) : String :=
  String.mk (((s.data.dropWhile isWsChar).reverse.dropWhile isWsChar).reverse)

/-- Whether `pat` is an initial segment of `l` (plain list comparison). -/
def leadsWith : List Char → List Char → Bool
  | [], _ => true
  | _ :: _, [] => false
  | a :: as, b :: bs => a = b && leadsWith as bs

/-- First case-insensitive occurrence of the literal `pat` in `l`
(`re.search(re.escape(pat), l, re.IGNORECASE)`): returns the matched slice
(`group(0)`, in original case) and the remainder of `l` after it. -/
def ciFindFrom (pat : List Char) : List Char → Option (List Char × List Char)
  | [] => if leadsWith (lowerL pat) (lowerL []) then some ([], []) else none
  | c :: t =>
    if leadsWith (lowerL pat) (lowerL (c :: t)) then
      some ((c :: t).take pat.length, (c :: t).drop pat.length)
    else ciFindFrom pat t

/-- Case-insensitive occurrence test used to state claim C5: the lowered
pattern appears as a contiguous segment of the lowered text. -/
def occursCI (pat text : List Char) : Bool :=
  (List.range (text.length + 1)).any fun i => leadsWith (lowerL pat) (lowerL (text.drop i))

/-- Case-insensitive substring test (Python `needle in hay` after `.lower()`). -/
def listHas (needle hay : List Char) : Bool :=
  (List.range (hay.length + 1)).any fun i => leadsWith needle (hay.drop i)

/-- The `([.,]\d{3})*` part of the number regex of `searching`
(search_utils.py line 36): greedily consume groups of a separator followed by
exactly three digits.  Returns the consumed characters and the rest. -/
def takeThousands : List Char → List Char × List Char
  | s :: a :: b :: c :: rest =>
    if (s = '.' || s = ',') && a.isDigit && b.isDigit && c.isDigit then
      let (g, r) := takeThousands rest
      (s :: a :: b :: c :: g, r)
    else ([], s :: a :: b :: c :: rest)
  | l => ([], l)

/-- The `([.,]\d+)?` part of the number regex: an optional separator followed
by at least one digit, consumed greedily. -/
def numOptDec : List Char → List Char × List Char
  | [] => ([], [])
  | s :: rest =>
    if s = '.' || s = ',' then
      let ds := rest.takeWhile Char.isDigit
      if ds.isEmpty then ([], s :: rest) else (s :: ds, rest.drop ds.length)
    else ([], s :: rest)

/-- Match of `(?:[-+]?\d{1,3}(?:[.,]\d{3})*(?:[.,]\d+)?)` anchored at the head
of `l` (the greedy semantics of `re`; every part after the first digits is
optional, so no backtracking is ever needed).  Returns `group(0)`. -/
def numAt (l : List Char) : Option (List Char) :=
  let (sgn, l1) :=
    match l with
    | c :: t => if c = '+' || c = '-' then ([c], t) else (([] : List Char), l)
    | [] => ([], [])
  let ds := (l1.takeWhile Char.isDigit).take 3
  if ds.isEmpty then none
  else
    let r1 := l1.drop ds.length
    let (th, r2) := takeThousands r1
    let (dec, _) := numOptDec r2
    some (sgn ++ ds ++ th ++ dec)

/-- Leftmost match of the number regex in `l` (`re.search` position scan). -/
def findNumber : List Char → Option (List Char)
  | [] => none
  | c :: t =>
    match numAt (c :: t) with
    | some m => some m
    | none => findNumber t

/-- ASCII `[A-Za-z0-9]`. -/
def isAlnumCh (c : Char) : Bool := c.isAlpha || c.isDigit

/-- ASCII fragment of Python `\w` (used for the `\b` boundary). -/
def isWordCh (c : Char) : Bool := isAlnumCh c || c = '_'

/-- Match of `\b([A-Za-z0-9]+)\b` anchored at the head of `l`, given whether
the previous character was a word character.  A match exists exactly when the
head is in the class, the position is a boundary, and the maximal class run is
not followed by a word character (a shorter run would end before a class
character, which is a word character, so backtracking cannot help). -/
def alnumAt (prevIsWord : Bool) (l : List Char) : Option (List Char) :=
  match l with
  | [] => none
  | c :: t =>
    if isAlnumCh c && !prevIsWord then
      let run := (c :: t).takeWhile isAlnumCh
      match (c :: t).drop run.length with
      | [] => some run
      | d :: _ => if isWordCh d then none else some run
    else none

/-- Leftmost match of `\b([A-Za-z0-9]+)\b` in `l`. -/
def findAlnumGo : Bool → List Char → Option (List Char)
  | _, [] => none
  | prev, c :: t =>
    match alnumAt prev (c :: t) with
    | some m => some m
    | none => findAlnumGo (isWordCh c) t

/-- Leftmost match of `\b([A-Za-z0-9]+)\b` starting at the head of the text. -/
def findAlnum (l : List Char) : Option (List Char) := findAlnumGo false l

/-- Leftmost match of `([a-zA-Z]+)`. -/
def findWord : List Char → Option (List Char)
  | [] => none
  | c :: t => if c.isAlpha then some ((c :: t).takeWhile Char.isAlpha) else findWord t

/-- The proximity heuristic of `searching` (search_utils.py lines 24-45):
find the first case-insensitive literal occurrence of `term` in `text`; if
none, `(None, None)`.  Otherwise skip the greedy run of separator characters
after the match, look at the following span of up to 100 characters, and
extract the first match of the number regex, else the alnum regex, else the
word regex; pair the matched term text with the extracted value (or `None`).
The second `re.search` of the source (line 31) re-finds the first
case-insensitive occurrence of `group(0)`, which is the same position, so it
is folded into the single scan here (it always succeeds, hence the
`if after_term` guard of line 33 is always taken). -/
def proximity (term text : String) : Option String × Option String :=
  match ciFindFrom term.data text.data with
  | none => (none, none)
  | some (g0, rest) =>
    let snippet := (rest.dropWhile isSepChar).take 100
    match findNumber snippet <|> findAlnum snippet <|> findWord snippet with
    | some v => (some (String.mk g0), some (String.mk v))
    | none => (some (String.mk g0), none)

/-- Result of `searching`: either a `(key, value)` tuple or, in `return_all`
mode with matching custom patterns, a flat list of captured matches. -/
inductive SearchOut where
  | pair (p : Option String × Option String)
  | list (l : List String)
deriving DecidableEq

/-- Pattern sets as handed to `searching` (`patterns` argument): `None` or a
dict from lowercased term label to a list of regex patterns. -/
abbrev Patterns (P : Type) := Option (List (String × List P))

/-- Python dict lookup on the association-list model. -/
def lookupAssoc {A : Type} (k : String) : List (String × A) → Option A
  | [] => none
  | (k2, v) :: rest => if k2 = k then some v else lookupAssoc k rest

/-- The custom-pattern loop of `searching` (search_utils.py lines 13-22):
run each pattern in order; on the first pattern with matches return the term
with the first capture stripped (non-`return_all`), or accumulate the matches
of all matching patterns and return them if any (`return_all`); `none` means
fall through to the proximity heuristic. -/
def searchCustomGo {P : Type} (findall : P → String → List String)
    (term text : String) (return_all : Bool) :
    List P → List String → Option SearchOut
  | [], acc => if acc.isEmpty then none else some (.list acc)
  | r :: rs, acc =>
    match findall r text with
    | [] => searchCustomGo findall term text return_all rs acc
    | m :: ms =>
      if return_all then searchCustomGo findall term text return_all rs (acc ++ m :: ms)
      else some (.pair (some term, some (pyStrip m)))

/-- `searching` (search_utils.py lines 6-45).  The custom-pattern branch runs
when `patterns` is truthy (a non-empty dict) and has an entry for the
lowercased term; otherwise, or when it falls through, the proximity heuristic
runs. -/
def searching {P : Type} (findall : P → String → List String)
    (search_term text : String) (patterns : Patterns P) (return_all : Bool) :
    SearchOut :=
  let custom : Option SearchOut :=
    match patterns with
    | none => none
    | some pats =>
      if pats.isEmpty then none
      else match lookupAssoc (pyLower search_term) pats with
        | none => none
        | some regex_list => searchCustomGo findall search_term text return_all regex_list []
  match custom with
  | some out => out
  | none => .pair (proximity search_term text)

/-- Result of `chained_search`: a `(key, value)` tuple, or in trace
(`dev`) mode the full hop chain. -/
inductive ChainOut where
  | pair (p : Option String × Option String)
  | chain (l : List (String × String))
deriving DecidableEq

/-- View a `SearchOut` as the tuple it is unpacked into by
`term, value = searching(...)`.  For `return_all = False` the source always
returns a tuple (`searching_false_pair` below); the `.list` branch is
unreachable there. -/
def pairOf : SearchOut → Option String × Option String
  | .pair p => p
  | .list _ => (none, none)

/-- The hop loop of `chained_search` (search_utils.py lines 210-216): search
with the current term; stop when the returned key or value is falsy (`None`
or the empty string); otherwise record the hop and continue with the resolved
value as the next term, for at most `n` iterations. -/
def chainLoop {P : Type} (findall : P → String → List String)
    (text : String) (pats : Patterns P) : String → Nat → List (String × String)
  | _, 0 => []
  | t, Nat.succ m =>
    match pairOf (searching findall t text pats false) with
    | (some k, some v) =>
      if k = "" || v = "" then []
      else (k, v) :: chainLoop findall text pats v m
    | _ => []

/-- `chained_search` (search_utils.py lines 202-220).  With `n = 0` it
returns the single `searching` result.  Otherwise it runs the hop loop;
in `dev` (trace) mode it returns the chain, else `(initial_term,
current_value)` when the last resolved value is truthy and `(None, None)`
otherwise (`current_value` of the source is the value of the last recorded
hop, `None` when there is none). -/
def chained_search {P : Type} (findall : P → String → List String)
    (initial_term text : String) (n : Nat) (dev : Bool) (patterns : Patterns P) :
    ChainOut :=
  if n = 0 then .pair (pairOf (searching findall initial_term text patterns false))
  else
    let chain := chainLoop findall text patterns initial_term n
    if dev then .chain chain
    else
      match chain.getLast? with
      | some p => if p.2 = "" then .pair (none, none) else .pair (some initial_term, some p.2)
      | none => .pair (none, none)

/-- The search term used by hop `i` of the chain: the initial term for the
first hop, thereafter the value resolved by the previous hop. -/
def termAt (T : String) (hops : List (String × String)) : Nat → String
  | 0 => T
  | Nat.succ i =>
    match hops[i]? with
    | some p => p.2
    | none => ""

/-- A `searching` tuple that stops the hop loop: no key or no value, where
the empty string is falsy like `None` (Python `if not term or not value`). -/
def failsPair (kv : Option String × Option String) : Prop :=
  kv.1 = none ∨ kv.1 = some "" ∨ kv.2 = none ∨ kv.2 = some ""

instance (kv : Option String × Option String) : Decidable (failsPair kv) := by
  unfold failsPair; infer_instance

/-- Result of `serial_number`: `None`, a single match, or (in `return_all`
mode) the accumulated list of matches. -/
inductive SerialOut where
  | nothing
  | single (s : String)
  | multiple (l : List String)
deriving DecidableEq

/-- The token class `[A-Z0-9\-\/]` of the serial regex, case-insensitive. -/
def isSerialTok (c : Char) : Bool :=
  c.isAlpha || c.isDigit || c = '-' || c = '/'

/-- Match of `(?i)label\s*[:\-#]?\s*([A-Z0-9\-\/]+)` anchored at the head of
`l` (search_utils.py line 107): the literal label case-insensitively, a greedy
whitespace run, an optional separator, another whitespace run, then the token
(capture group).  Backtracking matters only when the separator is `-` and no
token follows: the engine then retries with the separator unconsumed, and the
`-` itself becomes the (one-character) token, because `-` is in the token
class while `:` and `#` are not.  Returns the captured group and the rest of
the input after the whole match (where `re.findall` resumes). -/
def matchSerialAt (label : List Char) (l : List Char) : Option (String × List Char) :=
  if leadsWith (lowerL label) (lowerL l) then
    let r0 := l.drop label.length
    let r1 := r0.dropWhile isWsChar
    match r1 with
    | [] => none
    | c :: r2 =>
      if c = ':' || c = '#' then
        let r3 := r2.dropWhile isWsChar
        let run := r3.takeWhile isSerialTok
        if run.isEmpty then none else some (String.mk run, r3.drop run.length)
      else if c = '-' then
        let r3 := r2.dropWhile isWsChar
        let run := r3.takeWhile isSerialTok
        if run.isEmpty then some ("-", r2) else some (String.mk run, r3.drop run.length)
      else
        let run := (c :: r2).takeWhile isSerialTok
        if run.isEmpty then none else some (String.mk run, (c :: r2).drop run.length)
  else none

/-- `re.findall` for the serial regex: scan left to right, emit each
non-overlapping match's group and resume after it.  `fuel` bounds the
recursion; every step either advances one character or consumes a whole match
of at least one character, so `fuel = text.length` never runs out early and
the result equals the unbounded scan. -/
def serialFindallGo (label : List Char) : Nat → List Char → List String
  | 0, _ => []
  | _, [] => []
  | Nat.succ fuel, c :: t =>
    match matchSerialAt label (c :: t) with
    | some (g, rest) => g :: serialFindallGo label fuel rest
    | none => serialFindallGo label fuel t

/-- All matches of the serial regex for `label` in `text`, in order. -/
def serialFindall (label text : List Char) : List String :=
  serialFindallGo label text.length text

/-- The custom `"serial"`-pattern loop of `serial_number` (search_utils.py
lines 87-96): first pattern with matches returns its first match
(no `.strip()` there), or in `return_all` mode all matches of all matching
patterns are accumulated and returned if any; `none` falls through to the
built-in vocabulary. -/
def serialCustomGo {P : Type} (findall : P → String → List String)
    (text : String) (return_all : Bool) : List P → List String → Option SerialOut
  | [], acc => if acc.isEmpty then none else some (.multiple acc)
  | r :: rs, acc =>
    match findall r text with
    | [] => serialCustomGo findall text return_all rs acc
    | m :: ms =>
      if return_all then serialCustomGo findall text return_all rs (acc ++ m :: ms)
      else some (.single m)

/-- The *effective* built-in vocabulary of `serial_number`: the second
assignment to `serial_words` (search_utils.py lines 98-103), which shadows
the richer list of lines 65-83 (that first list, containing among others
"invoice" and "order number", is dead code). -/
def serialWords : List String :=
  ["número de serie", "nº de serie", "no. de serie", "num. de serie",
   "serie", "serial", "serial number", "id", "código", "folio", "factura",
   "ticket", "recibo", "orden", "pedido", "documento", "contrato",
   "expediente", "registro", "unique id", "reference"]

/-- The vocabulary loop of `serial_number` (search_utils.py lines 105-115):
for each label in list order, find all matches of the serial regex; the first
label with matches returns its first match (non-`return_all`), or all labels'
matches are accumulated (`return_all`); the final result is the accumulated
list if non-empty, else `None`. -/
def serialWordsLoop (text : String) (return_all : Bool) :
    List String → List String → SerialOut
  | [], acc => if acc.isEmpty then .nothing else .multiple acc
  | w :: ws, acc =>
    match serialFindall w.data text.data with
    | [] => serialWordsLoop text return_all ws acc
    | m :: ms =>
      if return_all then serialWordsLoop text return_all ws (acc ++ m :: ms)
      else .single m

/-- `serial_number` (search_utils.py lines 61-115): custom `"serial"`
patterns first (when `patterns` is a truthy dict with a `"serial"` entry),
then the built-in vocabulary. -/
def serial_number {P : Type} (findall : P → String → List String)
    (text : String) (patterns : Patterns P) (return_all : Bool) : SerialOut :=
  let custom : Option SerialOut :=
    match patterns with
    | none => none
    | some pats =>
      if pats.isEmpty then none
      else match lookupAssoc "serial" pats with
        | none => none
        | some regex_list => serialCustomGo findall text return_all regex_list []
  match custom with
  | some out => out
  | none => serialWordsLoop text return_all serialWords []

/-- A fraction `numerator / denominator` reduced to lowest terms with
positive denominator.  Every fraction in the development is built by this
normalizing constructor (and the denominator is never 0), so structural
equality of the pairs coincides with equality of the rational values they
denote. -/
def mkFrac (n : Int) (d : Nat) : Int × Nat :=
  let g := Nat.gcd n.natAbs d
  if g = 0 then (0, 0) else (n / (g : Int), d / g)

/-- A Python float value, modelled exactly: finite values as reduced
fractions (all values in the claims are exact decimal fractions, where
double rounding plays no role), plus signed infinities and nan. -/
inductive PyFloat where
  | finite (q : Int × Nat)
  | inf (neg : Bool)
  | nan
deriving DecidableEq

/-- Python float addition on the model. -/
def pyAdd : PyFloat → PyFloat → PyFloat
  | .nan, _ => .nan
  | _, .nan => .nan
  | .inf s, .inf t => if s = t then .inf s else .nan
  | .inf s, .finite _ => .inf s
  | .finite _, .inf s => .inf s
  | .finite a, .finite b => .finite (mkFrac (a.1 * b.2 + b.1 * a.2) (a.2 * b.2))

/-- Maximal run of decimal digits possibly separated by single underscores
(the digit grammar of Python `float()`): accumulates the value and the digit
count, stopping before a malformed underscore (which then makes the whole
parse fail at the caller, as in CPython). -/
def digRunGo : List Char → Nat → Nat → Nat × Nat × List Char
  | [], acc, cnt => (acc, cnt, [])
  | c :: rest, acc, cnt =>
    if c.isDigit then digRunGo rest (acc * 10 + (c.toNat - 48)) (cnt + 1)
    else if c = '_' then
      match rest with
      | d :: rest2 =>
        if d.isDigit then digRunGo rest2 (acc * 10 + (d.toNat - 48)) (cnt + 1)
        else (acc, cnt, c :: rest)
      | [] => (acc, cnt, c :: rest)
    else (acc, cnt, c :: rest)

/-- A digit run must start with a digit; returns value, digit count, rest. -/
def digRun (l : List Char) : Option (Nat × Nat × List Char) :=
  match l with
  | c :: _ => if c.isDigit then some (digRunGo l 0 0) else none
  | [] => none

/-- Strip ASCII whitespace from both ends. -/
def trimWsL (l : List Char) : List Char :=
  ((l.dropWhile isWsChar).reverse.dropWhile isWsChar).reverse

/-- The optional exponent part of the Python float grammar, which must
consume the whole rest of the string. -/
def parseExp : List Char → Option Int
  | [] => some 0
  | c :: t =>
    if c = 'e' || c = 'E' then
      let (eneg, t1) :=
        match t with
        | '+' :: t2 => (false, t2)
        | '-' :: t2 => (true, t2)
        | _ => (false, t)
      match digRun t1 with
      | some (ev, _, []) => some (if eneg then -(ev : Int) else (ev : Int))
      | _ => none
    else none

/-- Assemble a finite Python float from sign, integer part, fractional part
with its digit count, and exponent: the exact rational value
`± (iv + fv / 10 ^ fd) * 10 ^ e`. -/
def mkPyF (neg : Bool) (iv fv fd : Nat) (e : Int) : PyFloat :=
  let n : Int := (if neg then -1 else 1) * (iv * 10 ^ fd + fv)
  let d : Nat := 10 ^ fd
  if 0 ≤ e then .finite (mkFrac (n * 10 ^ e.toNat) d)
  else .finite (mkFrac n (d * 10 ^ (-e).toNat))

/-- Python `float(s)`: optional surrounding whitespace and sign, then
`inf`/`infinity`/`nan` (case-insensitive) or `digits [. digits] [exp]` /
`. digits [exp]`, digits admitting single underscores between digits;
`none` models `ValueError`. -/
def pyFloatOfString (s : String) : Option PyFloat :=
  let l := trimWsL s.data
  let (neg, l1) :=
    match l with
    | '+' :: t => (false, t)
    | '-' :: t => (true, t)
    | _ => (false, l)
  let low := lowerL l1
  if low = "inf".data || low = "infinity".data then some (.inf neg)
  else if low = "nan".data then some .nan
  else
    match digRun l1 with
    | some (iv, _, r1) =>
      match r1 with
      | '.' :: r2 =>
        match digRun r2 with
        | some (fv, fd, r3) => (parseExp r3).map (mkPyF neg iv fv fd)
        | none => (parseExp r2).map (mkPyF neg iv 0 0)
      | _ => (parseExp r1).map (mkPyF neg iv 0 0)
    | none =>
      match l1 with
      | '.' :: r2 =>
        match digRun r2 with
        | some (fv, fd, r3) => (parseExp r3).map (mkPyF neg 0 fv fd)
        | none => none
      | _ => none

/-- Result of `normalize_number`: a float, or the (space-stripped,
separator-rewritten) string when conversion fails. -/
inductive NormOut where
  | num (f : PyFloat)
  | str (s : String)
deriving DecidableEq

/-- `normalize_number` (search_utils.py lines 117-130): remove spaces; if the
string has both a comma and a point drop the commas, else if it has only a
comma turn it into a point; return the float if conversion succeeds, else the
(rewritten) string — the source returns the reassigned `num_str`, not the
original argument. -/
def normalize_number (num_str : String) : NormOut :=
  let n1 : List Char := num_str.data.filter (fun c => c ≠ ' ')
  let n2 : List Char :=
    if (',' ∈ n1) ∧ ('.' ∈ n1) then n1.filter (fun c => c ≠ ',')
    else if ',' ∈ n1 then n1.map (fun c => if c = ',' then '.' else c)
    else n1
  match pyFloatOfString (String.mk n2) with
  | some f => .num f
  | none => .str (String.mk n2)

/-- An extraction result record as built by `extract_data_from_docs`
(general_utils.py): `.get` on an absent `Path` (or a `None` field) is
`none`. -/
structure ExtractionResult where
  Image : String
  Serial : SerialOut
  Key : Option String
  Value : Option String
  Path : Option String
deriving DecidableEq

/-- `summed_values[key] = summed_values.get(key, 0.0) + normalized`
(search_utils.py line 150): update in place, or append at the end in Python
dict insertion order. -/
def addSum (k : String) (q : PyFloat) : List (String × PyFloat) → List (String × PyFloat)
  | [] => [(k, pyAdd (.finite (mkFrac 0 1)) q)]
  | (k2, x) :: rest =>
    if k2 = k then (k2, pyAdd x q) :: rest else (k2, x) :: addSum k q rest

/-- `string_values[key].add(normalized)` on a per-key set (search_utils.py
lines 152-154): Python sets are unordered; they are modelled as
insertion-ordered duplicate-free lists, which agrees with set semantics on
membership and duplicate collapse (the only properties the claims state). -/
def setAdd (k v : String) : List (String × List String) → List (String × List String)
  | [] => [(k, [v])]
  | (k2, l) :: rest =>
    if k2 = k then (k2, if v ∈ l then l else l ++ [v]) :: rest
    else (k2, l) :: setAdd k v rest

/-- The aggregation loop of `final_dict` (search_utils.py lines 141-154). -/
def finalDictGo : List ExtractionResult →
    List (String × PyFloat) → List (String × List String) →
    List (String × PyFloat) × List (String × List String)
  | [], s, t => (s, t)
  | r :: rest, s, t =>
    match r.Key, r.Value with
    | some k, some v =>
      match normalize_number v with
      | .num f => finalDictGo rest (addSum k f s) t
      | .str sv => finalDictGo rest s (setAdd k sv t)
    | _, _ => finalDictGo rest s t

/-- `final_dict` (search_utils.py lines 132-157): sum numeric values per key,
collect distinct non-numeric normalized strings per key, skip entries whose
`Key` or `Value` is `None`. -/
def final_dict (results : List ExtractionResult) :
    List (String × PyFloat) × List (String × List String) :=
  finalDictGo results [] []

/-- The dedup loop of `comparing_tables` (ocr_utils.py lines 184-198),
generic in the table type and in the signature function: a table whose
signature was already seen is dropped, otherwise it is kept and its signature
recorded.  `sig` abstracts the total signature computation of the source
(md5 of the normalized frame, falling back to md5 of the raw representation
on normalization failure — a total function of the table either way). -/
def ctGo {α β : Type} [DecidableEq β] (sig : α → β) : List α → List β → List α
  | [], _ => []
  | t :: ts, seen =>
    if sig t ∈ seen then ctGo sig ts seen else t :: ctGo sig ts (sig t :: seen)

/-- `comparing_tables` (ocr_utils.py lines 171-200): `[]` on falsy input,
else the first-seen-order dedup by signature. -/
def comparing_tables {α β : Type} [DecidableEq β] (sig : α → β) (tables_list : List α) :
    List α :=
  match tables_list with
  | [] => []
  | t :: ts => ctGo sig (t :: ts) []

/-- A table as consumed by the fallback search: column headers and rows of
cells, already in string form (the explicit tabular interface behind the
`table.df if hasattr(table, 'df') else table` duck-typing of the source). -/
structure TableT where
  cols : List String
  rows : List (List String)
deriving DecidableEq

/-- The cell normalization of `_normalize_dataframe_for_signature`
(ocr_utils.py line 166): `re.sub(r'\s+', ' ', x).strip().lower()`. -/
def collapseWsGo : Bool → List Char → List Char
  | _, [] => []
  | prevWs, c :: t =>
    if isWsChar c then
      if prevWs then collapseWsGo true t else ' ' :: collapseWsGo true t
    else c :: collapseWsGo false t

/-- Normalize one cell: collapse whitespace runs, strip, lowercase. -/
def normCell (s : String) : String :=
  pyLower (pyStrip (String.mk (collapseWsGo false s.data)))

/-- The signature of a table (ocr_utils.py lines 157-191): columns via
`str(c).strip().lower()`, plus the first 8 rows with every cell normalized.
The source hashes `repr` of this pair with md5; the hashing is dropped in the
model (it only maps the signature injectively, up to md5 collisions). -/
def tableSig (t : TableT) : List String × List (List String) :=
  (t.cols.map (fun c => pyLower (pyStrip c)), (t.rows.take 8).map (List.map normCell))

/-- The external-engine environment of `fallback_table_extraction`: each
boundary call either raises (`Except.error`) or returns its value.  `τ` is
the engine's table type. -/
structure TableEnv (τ : Type) where
  imgToPdf : Except Unit Unit
  isScanned : Except Unit Bool
  camelotLattice : Except Unit (List τ)
  camelotStream : Except Unit (List τ)
  tabulaLattice : Except Unit (List τ)
  tabulaStream : Except Unit (List τ)

/-- The log events emitted by `fallback_table_extraction`. -/
inductive LogEvent where
  | warnUnsupported
  | errConvert
  | warnScanFail
  | infoScannedSkip
  | errCamelot
  | errTabula
deriving DecidableEq

/-- The final component of a path (after the last `/`). -/
def pathName (p : String) : List Char :=
  (p.data.reverse.takeWhile (fun c => c ≠ '/')).reverse

/-- `pathlib.Path.suffix`: the extension of the final component; empty when
the last dot is leading, trailing or absent (CPython: the suffix is
`name[i:]` only when `0 < i < len(name) - 1` for `i = name.rfind('.')`). -/
def pathSuffix (p : String) : String :=
  let name := pathName p
  match name.reverse.findIdx? (fun c => c = '.') with
  | some j =>
    let i := name.length - 1 - j
    if 0 < i ∧ i + 1 < name.length then String.mk (name.drop i) else ""
  | none => ""

/-- The image extensions accepted by `fallback_table_extraction`
(ocr_utils.py line 96). -/
def imageExts : List String :=
  [".jpg", ".jpeg", ".png", ".bmp", ".tiff", ".gif"]

/-- The all-empty four-key dictionary returned on unsupported input or
conversion failure. -/
def emptyTablesDict {τ : Type} : List (String × List τ) :=
  [("camelot_lattice", []), ("camelot_stream", []),
   ("tabula_lattice", []), ("tabula_stream", [])]

/-- The scanned-check/Camelot/Tabula body of `fallback_table_extraction`
(ocr_utils.py lines 125-155), once a PDF path is available: a failing
scanned-check defaults to not-scanned; Camelot runs only when not scanned and
a failure of either flavor empties both; Tabula always runs with the same
failure behavior (`x or []` is the identity on the list-valued model). -/
def fallbackCore {τ : Type} (env : TableEnv τ) :
    List (String × List τ) × List LogEvent :=
  let scanRes : Bool × List LogEvent :=
    match env.isScanned with
    | .ok b => (b, [])
    | .error _ => (false, [.warnScanFail])
  let camRes : List τ × List τ × List LogEvent :=
    if scanRes.1 then ([], [], [.infoScannedSkip])
    else
      match env.camelotLattice with
      | .error _ => ([], [], [.errCamelot])
      | .ok l1 =>
        match env.camelotStream with
        | .error _ => ([], [], [.errCamelot])
        | .ok l2 => (l1, l2, [])
  let tabRes : List τ × List τ × List LogEvent :=
    match env.tabulaLattice with
    | .error _ => ([], [], [.errTabula])
    | .ok l1 =>
      match env.tabulaStream with
      | .error _ => ([], [], [.errTabula])
      | .ok l2 => (l1, l2, [])
  ([("camelot_lattice", camRes.1), ("camelot_stream", camRes.2.1),
    ("tabula_lattice", tabRes.1), ("tabula_stream", tabRes.2.1)],
   scanRes.2 ++ camRes.2.2 ++ tabRes.2.2)

/-- `fallback_table_extraction` (ocr_utils.py lines 80-155): an image suffix
first converts to PDF (a conversion failure returns the all-empty dict), a
`.pdf` suffix is used as-is, and any other suffix returns the all-empty dict
with a warning; then the engine body runs.  Returns the four-key dict and the
log events. -/
def fallback_table_extraction {τ : Type} (env : TableEnv τ) (image_path : String) :
    List (String × List τ) × List LogEvent :=
  let sfx := pyLower (pathSuffix image_path)
  if sfx ∈ imageExts then
    match env.imgToPdf with
    | .error _ => (emptyTablesDict, [.errConvert])
    | .ok _ => fallbackCore env
  else if sfx = ".pdf" then fallbackCore env
  else (emptyTablesDict, [.warnUnsupported])

/-- The duplicate test of the table-search appends (general_utils.py lines
191-194 and 212-215): an already-recorded result with the same image, key and
value. -/
def dupRes (results : List ExtractionResult) (img key value : String) : Bool :=
  results.any fun r =>
    decide (r.Image = img) && decide (r.Key = some key) && decide (r.Value = some value)

/-- The row loop of the header-match branch (general_utils.py lines 189-201):
for every row, append the cell of the matched column when it is truthy and
not a duplicate; `found` becomes true as soon as anything was appended, and
the loop still visits the remaining rows.  A short row is modelled as
yielding the empty (falsy) cell. -/
def scanColRows (img term : String) (serial : SerialOut) (colIdx : Nat) :
    List (List String) → List ExtractionResult → Bool → List ExtractionResult × Bool
  | [], results, found => (results, found)
  | row :: rest, results, found =>
    let value := (row[colIdx]?).getD ""
    if value ≠ "" ∧ ¬ dupRes results img (pyLower term) value then
      scanColRows img term serial colIdx rest
        (results ++ [⟨img, serial, some (pyLower term), some value, none⟩]) true
    else scanColRows img term serial colIdx rest results found

/-- The column loop of the header-match branch (general_utils.py lines
187-203): scan the columns in order; a column whose lowercased header
contains the lowercased term has its rows scanned; the loop stops at the
first column for which something was appended. -/
def scanCols (img term : String) (serial : SerialOut) :
    List (Nat × String) → List (List String) → List ExtractionResult →
    List ExtractionResult × Bool
  | [], _, results => (results, false)
  | (i, col) :: rest, rows, results =>
    if listHas (pyLower term).data (pyLower col).data then
      let step := scanColRows img term serial i rows results false
      if step.2 then (step.1, true) else scanCols img term serial rest rows step.1
    else scanCols img term serial rest rows results

/-- The cell loop of the full-scan branch (general_utils.py lines 210-225):
the first cell of the row containing the term as a substring and not yet
recorded is appended and stops the row. -/
def scanCellsRow (img term : String) (serial : SerialOut) :
    List String → List ExtractionResult → List ExtractionResult × Bool
  | [], results => (results, false)
  | cell :: rest, results =>
    if listHas (pyLower term).data (pyLower cell).data ∧
        ¬ dupRes results img (pyLower term) cell then
      (results ++ [⟨img, serial, some (pyLower term), some cell, none⟩], true)
    else scanCellsRow img term serial rest results

/-- The row loop of the full-scan branch: stop at the first row with a hit. -/
def scanCellsRows (img term : String) (serial : SerialOut) :
    List (List String) → List ExtractionResult → List ExtractionResult × Bool
  | [], results => (results, false)
  | row :: rest, results =>
    let step := scanCellsRow img term serial row results
    if step.2 then (step.1, true) else scanCellsRows img term serial rest step.1

/-- Search one table (general_utils.py lines 184-229): the header-match
branch first; when it found something the table loop stops, otherwise the
full cell scan runs. -/
def processTable (img term : String) (serial : SerialOut) (t : TableT)
    (results : List ExtractionResult) : List ExtractionResult × Bool :=
  let step1 := scanCols img term serial t.cols.enum t.rows results
  if step1.2 then (step1.1, true)
  else scanCellsRows img term serial t.rows step1.1

/-- The table loop for one flavor: stop at the first table with a hit. -/
def tablesLoop (img term : String) (serial : SerialOut) :
    List TableT → List ExtractionResult → List ExtractionResult × Bool
  | [], results => (results, false)
  | t :: ts, results =>
    let step := processTable img term serial t results
    if step.2 then (step.1, true) else tablesLoop img term serial ts step.1

/-- The flavor keys iterated by `extract_data_from_docs`
(general_utils.py line 179). -/
def flavorNames : List String :=
  ["camelot_lattice", "camelot_stream", "tabula_lattice", "tabula_stream"]

/-- The flavor loop (general_utils.py lines 179-232): each flavor's tables
are deduplicated and searched; the loop stops at the first flavor with a
hit. -/
def flavorLoop (img term : String) (serial : SerialOut)
    (dict : List (String × List TableT)) :
    List String → List ExtractionResult → List ExtractionResult
  | [], results => results
  | fl :: fls, results =>
    let raw := (lookupAssoc fl dict).getD []
    let tables := comparing_tables tableSig raw
    let step := tablesLoop img term serial tables results
    if step.2 then step.1 else flavorLoop img term serial dict fls step.1

/-- Join character lists with a separator (Python `str.flatten`). -/
def joinSep (sep : List Char) : List (List Char) → List Char
  | [] => []
  | [x] => x
  | x :: y :: rest => x ++ sep ++ joinSep sep (y :: rest)

/-- The hop-chain string of the trace-mode record (general_utils.py
line 151): `" -> ".flatten(f"{k}:{v}" ...)`. -/
def mkPathStr (chain : List (String × String)) : String :=
  String.mk (joinSep " -> ".data (chain.map fun p => p.1.data ++ ":".data ++ p.2.data))

/-- The per-term body of `extract_data_from_docs` (general_utils.py lines
146-232).  Returns the updated result list and whether the table fallback was
invoked for this (document, term) pair.  In trace (`dev`) mode a non-empty
chain is recorded but control still falls through to the table fallback
(there is no `continue` in that branch); in non-trace mode a truthy key and
value are recorded and the `continue` skips the fallback.  The `.pair` case
under `dev` (which only arises for `n = 0`, where the source raises a
`TypeError` while unpacking `output[-1]`) and the `.chain` case under
non-`dev` (unreachable, since `chained_search` returns a tuple there) are
modelled as recording nothing; no theorem exercises them. -/
def processTerm {P : Type} (findall : P → String → List String)
    (env : TableEnv TableT) (folder img text : String) (serial : SerialOut)
    (term : String) (n : Nat) (dev : Bool) (pats : Patterns P)
    (results : List ExtractionResult) : List ExtractionResult × Bool :=
  let output := chained_search findall term text n dev pats
  let afterSearch : List ExtractionResult × Bool :=
    if dev then
      match output with
      | .chain [] => (results, false)
      | .chain (h :: tl) =>
        let lastp := (h :: tl).getLast (by simp)
        (results ++ [⟨img, serial, some (pyLower (pyStrip lastp.1)), some lastp.2,
                      some (mkPathStr (h :: tl))⟩], false)
      | .pair _ => (results, false)
    else
      match output with
      | .pair (some k, some v) =>
        if k = "" || v = "" then (results, false)
        else (results ++ [⟨img, serial, some (pyLower (pyStrip k)), some v, none⟩], true)
      | .pair _ => (results, false)
      | .chain _ => (results, false)
  if afterSearch.2 then (afterSearch.1, false)
  else
    let dict := (fallback_table_extraction env (folder ++ "/" ++ img)).1
    (flavorLoop img term serial dict flavorNames afterSearch.1, true)

/-- The term loop of `extract_data_from_docs` for one document, also
collecting the `(image, term)` pairs for which the table fallback was
invoked. -/
def termsLoop {P : Type} (findall : P → String → List String)
    (env : TableEnv TableT) (folder img text : String) (serial : SerialOut)
    (n : Nat) (dev : Bool) (pats : Patterns P) :
    List String → List ExtractionResult →
    List ExtractionResult × List (String × String)
  | [], results => (results, [])
  | term :: rest, results =>
    let step := processTerm findall env folder img text serial term n dev pats results
    let tail := termsLoop findall env folder img text serial n dev pats rest step.1
    (tail.1, (if step.2 then [(img, term)] else []) ++ tail.2)

/-- The document loop of `extract_data_from_docs`: per document, the serial
is extracted once when enabled, then every term is processed. -/
def docsLoop {P : Type} (findall : P → String → List String)
    (env : TableEnv TableT) (folder : String) (n : Nat) (dev : Bool)
    (pats : Patterns P) (searching_serial : Bool) (terms : List String) :
    List (String × String) → List ExtractionResult →
    List ExtractionResult × List (String × String)
  | [], results => (results, [])
  | (img, text) :: rest, results =>
    let serial := if searching_serial then serial_number findall text pats false
                  else .nothing
    let step := termsLoop findall env folder img text serial n dev pats terms results
    let tail := docsLoop findall env folder n dev pats searching_serial terms rest step.1
    (tail.1, step.2 ++ tail.2)

/-- `extract_data_from_docs` (general_utils.py lines 133-234) over the
zipped `(image_name, text)` pairs (the image paths of the source are
`folder / image_name`, rebuilt here the same way).  The second component is
the instrumentation of the external side effect: the list of `(image, term)`
pairs for which `fallback_table_extraction` was invoked, in invocation
order. -/
def extract_data_from_docs {P : Type} (findall : P → String → List String)
    (env : TableEnv TableT) (image_names texts : List String)
    (searching_serial : Bool) (terms : List String) (folder : String)
    (n : Nat) (dev : Bool) (patterns : Patterns P) :
    List ExtractionResult × List (String × String) :=
  docsLoop findall env folder n dev patterns searching_serial terms
    (image_names.zip texts) []

/-- A trivial concrete instance of the custom-pattern engine boundary, used
by witnesses that do not exercise custom patterns. -/
def noF : Unit → String → List String := fun _ _ => []

/-- A concrete engine environment in which the image-to-PDF conversion
succeeds and every other boundary call raises. -/
def envEmpty : TableEnv TableT :=
  ⟨.ok (), .error (), .error (), .error (), .error (), .error ()⟩

/-- C1, counterexample: `normalize_number "1.234,56"` does not return the
float 1234.56.  The string has both a comma and a point, so the commas are
dropped, leaving `"1.23456"`, which converts to 1.23456. -/
theorem normalize_number_euro_cex :
    normalize_number "1.234,56" ≠ NormOut.num (PyFloat.finite (mkFrac 123456 100)) := by
  decide

/-- C1, amended: `normalize_number "1.234,56"` returns the float 1.23456
(both separators present, so the commas — not the points — are dropped);
`normalize_number "1,234.56"` returns the float 1234.56; and
`normalize_number "abc"` returns the string `"abc"` unchanged. -/
theorem normalize_number_examples :
    normalize_number "1.234,56" = NormOut.num (PyFloat.finite (mkFrac 123456 100000))
    ∧ normalize_number "1,234.56" = NormOut.num (PyFloat.finite (mkFrac 123456 100))
    ∧ normalize_number "abc" = NormOut.str "abc" :=
  ⟨by decide, by decide, by decide⟩

/-- C6: the effective built-in vocabulary of `serial_number` (the second
`serial_words` assignment, which shadows the first) has no "invoice" and no
"order number" label: on `"invoice: ABC-123"` the function returns `None`,
although the claim's vocabulary (and the shadowed first list of the source)
would match "invoice" and yield `"ABC-123"` — as the second conjunct shows
the mechanism does for a label, "serie", that the effective vocabulary does
contain. -/
theorem serial_number_vocab_gap :
    serial_number noF "invoice: ABC-123" none false = SerialOut.nothing
    ∧ serial_number noF "serie: ABC-123" none false = SerialOut.single "ABC-123" :=
  ⟨by decide, by decide⟩

/-- C7: `final_dict` silently skips entries whose `Key` or `Value` is
missing; on `[{Key:"total",Value:"100"}, {Key:"total",Value:"50,5"},
{Key:"total",Value:"n/a"}]` it sums `summed["total"] = 150.5` and collects
`strings["total"] = ["n/a"]`; and a further `"n/a "` entry (normalizing to
the same string) collapses into the set, leaving the output unchanged. -/
theorem final_dict_aggregation :
    (∀ (r : ExtractionResult) (rs : List ExtractionResult),
        r.Key = none ∨ r.Value = none → final_dict (r :: rs) = final_dict rs)
    ∧ final_dict
        [⟨"", .nothing, some "total", some "100", none⟩,
         ⟨"", .nothing, some "total", some "50,5", none⟩,
         ⟨"", .nothing, some "total", some "n/a", none⟩]
      = ([("total", PyFloat.finite (mkFrac 301 2))], [("total", ["n/a"])])
    ∧ final_dict
        [⟨"", .nothing, some "total", some "100", none⟩,
         ⟨"", .nothing, some "total", some "50,5", none⟩,
         ⟨"", .nothing, some "total", some "n/a", none⟩,
         ⟨"", .nothing, some "total", some "n/a ", none⟩]
      = ([("total", PyFloat.finite (mkFrac 301 2))], [("total", ["n/a"])]) := by
  refine ⟨fun r rs h => ?_, by decide, by decide⟩
  rcases h with h | h
  · cases hv : r.Value <;> simp [final_dict, finalDictGo, h, hv]
  · cases hk : r.Key <;> simp [final_dict, finalDictGo, h, hk]

/-- C7, witness: an entry with a missing key is skipped. -/
theorem final_dict_aggregation_witness :
    final_dict [⟨"x", .nothing, none, some "5", none⟩] = final_dict [] :=
  final_dict_aggregation.1 ⟨"x", .nothing, none, some "5", none⟩ [] (Or.inl rfl)

/-- With `return_all = False` the custom-pattern loop never accumulates, so
starting from an empty accumulator it returns `none` or a `.pair`. -/
theorem searchCustomGo_false_shape {P : Type} (findall : P → String → List String)
    (term text : String) (rl : List P) :
    searchCustomGo findall term text false rl [] = none
    ∨ ∃ p, searchCustomGo findall term text false rl [] = some (SearchOut.pair p) := by
  induction rl with
  | nil => left; rfl
  | cons r rs ih =>
    cases hf : findall r text with
    | nil => simpa [searchCustomGo, hf] using ih
    | cons m ms =>
      right
      exact ⟨(some term, some (pyStrip m)), by simp [searchCustomGo, hf]⟩

/-- With `return_all = False`, `searching` always returns a tuple. -/
theorem searching_false_pair {P : Type} (findall : P → String → List String)
    (term text : String) (pats : Patterns P) :
    ∃ p, searching findall term text pats false = SearchOut.pair p := by
  unfold searching
  cases pats with
  | none => exact ⟨_, rfl⟩
  | some l =>
    cases hl : l.isEmpty with
    | true => exact ⟨proximity term text, by simp [hl]⟩
    | false =>
      cases hk : lookupAssoc (pyLower term) l with
      | none => exact ⟨proximity term text, by simp [hl, hk]⟩
      | some rl =>
        rcases searchCustomGo_false_shape findall term text rl with h | ⟨p, h⟩
        · exact ⟨proximity term text, by simp [hl, hk, h]⟩
        · exact ⟨p, by simp [hl, hk, h]⟩

/-- C4: `chained_search` with `hops = 0` and trace mode off returns exactly
the same `(key, value)` pair as the single `searching` call on the same term,
text and pattern set. -/
theorem chained_search_zero_hops {P : Type} (findall : P → String → List String)
    (T text : String) (pats : Patterns P) :
    ∃ p, searching findall T text pats false = SearchOut.pair p
      ∧ chained_search findall T text 0 false pats = ChainOut.pair p := by
  obtain ⟨p, hp⟩ := searching_false_pair findall T text pats
  exact ⟨p, hp, by simp [chained_search, hp, pairOf]⟩

/-- When the pattern does not occur case-insensitively, the literal scan
fails. -/
theorem ciFindFrom_eq_none {pat : List Char} :
    ∀ {l : List Char}, occursCI pat l = false → ciFindFrom pat l = none := by
  intro l
  induction l with
  | nil =>
    intro h
    have h0 := (List.any_eq_false.mp h) 0 (by simp)
    simp only [List.drop_nil] at h0
    simp [ciFindFrom, h0]
  | cons c t ih =>
    intro h
    have h0 := (List.any_eq_false.mp h) 0 (by simp)
    simp only [List.drop_zero] at h0
    have ht : occursCI pat t = false := by
      apply List.any_eq_false.mpr
      intro i hi
      have := (List.any_eq_false.mp h) (i + 1) (by
        simp only [List.mem_range] at hi ⊢
        simpa using Nat.succ_lt_succ hi)
      simpa using this
    simp [ciFindFrom, h0, ih ht]

/-- C5: for every term `T` and every text with no case-insensitive occurrence
of `T`, `searching` (with the default `patterns = None` and
`return_all = False` of the source) returns `(None, None)`. -/
theorem searching_no_occurrence {P : Type} (findall : P → String → List String)
    (T text : String) (h : occursCI T.data text.data = false) :
    searching findall T text none false = SearchOut.pair (none, none) := by
  simp [searching, proximity, ciFindFrom_eq_none h]

/-- C5, witness: `"total"` does not occur in `"abc"`, and `searching` returns
`(None, None)` there. -/
theorem searching_no_occurrence_witness :
    occursCI "total".data "abc".data = false
    ∧ searching noF "total" "abc" none false = SearchOut.pair (none, none) :=
  ⟨by decide, searching_no_occurrence noF "total" "abc" (by decide)⟩

/-- In `return_all` mode the custom-pattern loop accumulates exactly the
concatenation of all patterns' match lists (non-matching patterns contribute
nothing), and returns it when non-empty. -/
theorem searchCustomGo_true_eq {P : Type} (findall : P → String → List String)
    (term text : String) :
    ∀ (rl : List P) (acc : List String),
      searchCustomGo findall term text true rl acc
        = (if (acc ++ (rl.map (fun r => findall r text)).flatten).isEmpty then none
           else some (.list (acc ++ (rl.map (fun r => findall r text)).flatten))) := by
  intro rl
  induction rl with
  | nil => intro acc; simp [searchCustomGo]
  | cons r rs ih =>
    intro acc
    cases hf : findall r text with
    | nil => simp [searchCustomGo, hf, ih acc]
    | cons m ms => simp [searchCustomGo, hf, ih (acc ++ m :: ms)]

/-- A successful dict lookup implies the dict is truthy (non-empty). -/
theorem lookupAssoc_isEmpty_false {A : Type} {k : String} {l : List (String × A)} {v : A}
    (h : lookupAssoc k l = some v) : l.isEmpty = false := by
  cases l with
  | nil => simp [lookupAssoc] at h
  | cons x xs => rfl

/-- C10: with `return_all = True` and custom patterns bound to the term, if
at least one pattern matches, `searching` returns the flat list of the
captured matches of all matching patterns (in pattern order) instead of a
tuple; if the patterns are bound but none matches, it falls through to the
proximity heuristic and returns a tuple. -/
theorem searching_return_all_custom {P : Type} (findall : P → String → List String)
    (term text : String) (pats : List (String × List P)) (rl : List P)
    (hlook : lookupAssoc (pyLower term) pats = some rl) :
    ((rl.map (fun r => findall r text)).flatten ≠ [] →
        searching findall term text (some pats) true
          = SearchOut.list ((rl.map (fun r => findall r text)).flatten))
    ∧ ((∀ r ∈ rl, findall r text = []) →
        searching findall term text (some pats) true
          = SearchOut.pair (proximity term text)) := by
  have hne := lookupAssoc_isEmpty_false hlook
  constructor
  · intro hj
    simp [searching, hne, hlook, searchCustomGo_true_eq, hj]
  · intro hall
    have hj : (rl.map (fun r => findall r text)).flatten = [] := by
      apply List.flatten_eq_nil_iff.mpr
      intro l hl
      rcases List.mem_map.mp hl with ⟨r, hr, rfl⟩
      exact hall r hr
    simp [searching, hne, hlook, searchCustomGo_true_eq, hj]

/-- C10, witness: one bound pattern matching with captures `["a"]` makes
`searching` return the flat list `["a"]`. -/
theorem searching_return_all_custom_witness :
    lookupAssoc (pyLower "t") [("t", [()])] = some [()]
    ∧ searching (fun (_ : Unit) (_ : String) => ["a"]) "t" "x" (some [("t", [()])]) true
        = SearchOut.list ["a"] :=
  ⟨by decide,
   (searching_return_all_custom (fun (_ : Unit) (_ : String) => ["a"]) "t" "x"
      [("t", [()])] [()] (by decide)).1 (by decide)⟩

/-- The dedup loop output is a subsequence of its input. -/
theorem ctGo_sublist {α β : Type} [DecidableEq β] (sig : α → β) :
    ∀ (l : List α) (seen : List β), (ctGo sig l seen).Sublist l := by
  intro l
  induction l with
  | nil => intro seen; simp [ctGo]
  | cons t ts ih =>
    intro seen
    by_cases h : sig t ∈ seen
    · simp only [ctGo, if_pos h]
      exact (ih seen).cons t
    · simp only [ctGo, if_neg h]
      exact (ih (sig t :: seen)).cons₂ t

/-- Every kept table has a signature outside the seen set. -/
theorem ctGo_not_seen {α β : Type} [DecidableEq β] (sig : α → β) :
    ∀ (l : List α) (seen : List β) (x : α), x ∈ ctGo sig l seen → sig x ∉ seen := by
  intro l
  induction l with
  | nil => simp [ctGo]
  | cons t ts ih =>
    intro seen x hx
    by_cases h : sig t ∈ seen
    · exact ih seen x (by simpa [ctGo, h] using hx)
    · have hx' : x = t ∨ x ∈ ctGo sig ts (sig t :: seen) := by
        simpa [ctGo, h] using hx
      rcases hx' with rfl | hx'
      · exact h
      · intro hc
        exact ih _ x hx' (List.mem_cons_of_mem _ hc)

/-- The dedup loop output has pairwise distinct signatures. -/
theorem ctGo_pairwise {α β : Type} [DecidableEq β] (sig : α → β) :
    ∀ (l : List α) (seen : List β),
      (ctGo sig l seen).Pairwise (fun a b => sig a ≠ sig b) := by
  intro l
  induction l with
  | nil => intro seen; simp [ctGo]
  | cons t ts ih =>
    intro seen
    by_cases h : sig t ∈ seen
    · simpa [ctGo, h] using ih seen
    · simp only [ctGo, if_neg h]
      refine List.Pairwise.cons ?_ (ih _)
      intro x hx hc
      exact ctGo_not_seen sig ts _ x hx (by simp [hc])

/-- On a list with pairwise distinct signatures, all unseen, the dedup loop
is the identity. -/
theorem ctGo_fixed {α β : Type} [DecidableEq β] (sig : α → β) :
    ∀ (l : List α) (seen : List β),
      l.Pairwise (fun a b => sig a ≠ sig b) → (∀ x ∈ l, sig x ∉ seen) →
      ctGo sig l seen = l := by
  intro l
  induction l with
  | nil => intro seen _ _; rfl
  | cons t ts ih =>
    intro seen hp hn
    have ht : sig t ∉ seen := hn t (by simp)
    simp only [ctGo, if_neg ht]
    congr 1
    refine ih _ (List.Pairwise.of_cons hp) ?_
    intro x hx
    have h1 : sig t ≠ sig x := List.rel_of_pairwise_cons hp hx
    have h2 : sig x ∉ seen := hn x (List.mem_cons_of_mem _ hx)
    simp only [List.mem_cons]
    rintro (hc | hc)
    · exact h1 hc.symm
    · exact h2 hc

/-- C8: table deduplication is idempotent — `comparing_tables` applied to an
already-deduplicated list returns the same list (same table objects, same
order) — and `comparing_tables` always returns the original table objects as
a subsequence of the input (first-seen order), for any signature function. -/
theorem comparing_tables_idempotent {α β : Type} [DecidableEq β] (sig : α → β)
    (l : List α) :
    comparing_tables sig (comparing_tables sig l) = comparing_tables sig l
    ∧ (comparing_tables sig l).Sublist l := by
  cases l with
  | nil => simp [comparing_tables]
  | cons t ts =>
    constructor
    · show comparing_tables sig (ctGo sig (t :: ts) []) = ctGo sig (t :: ts) []
      have hpw := ctGo_pairwise sig (t :: ts) []
      cases hout : ctGo sig (t :: ts) [] with
      | nil => rfl
      | cons u us =>
        show ctGo sig (u :: us) [] = u :: us
        rw [hout] at hpw
        exact ctGo_fixed sig (u :: us) [] hpw (by simp)
    · exact ctGo_sublist sig (t :: ts) []

/-- The engine body always returns the four keys in order, and a raising
Tabula (resp. Camelot) call leaves both of that engine's lists empty. -/
theorem fallbackCore_contract {τ : Type} (env : TableEnv τ) :
    ((fallbackCore env).1.map Prod.fst)
        = ["camelot_lattice", "camelot_stream", "tabula_lattice", "tabula_stream"]
    ∧ (env.tabulaLattice = .error () →
        lookupAssoc "tabula_lattice" (fallbackCore env).1 = some []
        ∧ lookupAssoc "tabula_stream" (fallbackCore env).1 = some [])
    ∧ (env.camelotLattice = .error () →
        lookupAssoc "camelot_lattice" (fallbackCore env).1 = some []
        ∧ lookupAssoc "camelot_stream" (fallbackCore env).1 = some []) := by
  obtain ⟨ip, sc, cl, cs, tl, ts⟩ := env
  rcases sc with e | b
  · rcases cl with e1 | l1 <;> rcases cs with e2 | l2 <;>
    rcases tl with e3 | l3 <;> rcases ts with e4 | l4 <;>
    simp [fallbackCore, lookupAssoc]
  · rcases b with _ | _ <;>
    rcases cl with e1 | l1 <;> rcases cs with e2 | l2 <;>
    rcases tl with e3 | l3 <;> rcases ts with e4 | l4 <;>
    simp [fallbackCore, lookupAssoc]

/-- C9: `fallback_table_extraction` always returns a dict carrying exactly
the four engine-flavor keys, each bound to a list; when the input path is
neither an image nor a PDF, all four lists are empty and the unsupported-type
warning is logged; and internal engine failures (a raising Tabula or Camelot
call) yield empty lists for that engine instead of propagating — the model is
a total function for every environment of raising/returning boundary calls. -/
theorem fallback_table_extraction_contract {τ : Type} (env : TableEnv τ) (p : String) :
    ((fallback_table_extraction env p).1.map Prod.fst)
        = ["camelot_lattice", "camelot_stream", "tabula_lattice", "tabula_stream"]
    ∧ (pyLower (pathSuffix p) ∉ imageExts → pyLower (pathSuffix p) ≠ ".pdf" →
        (fallback_table_extraction env p).1 = emptyTablesDict
        ∧ LogEvent.warnUnsupported ∈ (fallback_table_extraction env p).2)
    ∧ (env.tabulaLattice = .error () →
        lookupAssoc "tabula_lattice" (fallback_table_extraction env p).1 = some []
        ∧ lookupAssoc "tabula_stream" (fallback_table_extraction env p).1 = some [])
    ∧ (env.camelotLattice = .error () →
        lookupAssoc "camelot_lattice" (fallback_table_extraction env p).1 = some []
        ∧ lookupAssoc "camelot_stream" (fallback_table_extraction env p).1 = some []) := by
  have hcore := fallbackCore_contract env
  by_cases h1 : pyLower (pathSuffix p) ∈ imageExts
  · cases hip : env.imgToPdf with
    | error e =>
      simp only [fallback_table_extraction, if_pos h1, hip]
      exact ⟨rfl, fun hna _ => absurd h1 hna, fun _ => ⟨rfl, rfl⟩, fun _ => ⟨rfl, rfl⟩⟩
    | ok u =>
      simp only [fallback_table_extraction, if_pos h1, hip]
      exact ⟨hcore.1, fun hna _ => absurd h1 hna, hcore.2.1, hcore.2.2⟩
  · by_cases h2 : pyLower (pathSuffix p) = ".pdf"
    · simp only [fallback_table_extraction, if_neg h1, if_pos h2]
      exact ⟨hcore.1, fun _ hnp => absurd h2 hnp, hcore.2.1, hcore.2.2⟩
    · have hval : fallback_table_extraction env p
          = (emptyTablesDict, [LogEvent.warnUnsupported]) := by
        simp only [fallback_table_extraction, if_neg h1, if_neg h2]
      rw [hval]
      exact ⟨rfl, fun _ _ => ⟨rfl, by simp⟩, fun _ => ⟨rfl, rfl⟩, fun _ => ⟨rfl, rfl⟩⟩

/-- C9, witness: a `.txt` path in the all-raising environment — the four
keys are present with empty lists, the warning is logged, and the
engine-failure clauses apply. -/
theorem fallback_table_extraction_contract_witness :
    ((fallback_table_extraction envEmpty "a.txt").1.map Prod.fst)
        = ["camelot_lattice", "camelot_stream", "tabula_lattice", "tabula_stream"]
    ∧ (fallback_table_extraction envEmpty "a.txt").1 = emptyTablesDict
    ∧ LogEvent.warnUnsupported ∈ (fallback_table_extraction envEmpty "a.txt").2
    ∧ lookupAssoc "tabula_lattice" (fallback_table_extraction envEmpty "a.txt").1 = some []
    ∧ lookupAssoc "camelot_stream" (fallback_table_extraction envEmpty "a.txt").1 = some [] := by
  have h := fallback_table_extraction_contract envEmpty "a.txt"
  have h2 := h.2.1 (by decide) (by decide)
  exact ⟨h.1, h2.1, h2.2, (h.2.2.1 rfl).1, (h.2.2.2 rfl).2⟩

/-- Shifting the hop index past the first recorded hop. -/
theorem termAt_shift (T k v : String) (c : List (String × String)) :
    ∀ i, termAt T ((k, v) :: c) (i + 1) = termAt v c i := by
  intro i
  cases i with
  | zero => simp [termAt]
  | succ j => simp [termAt]

/-- One unfolding step of the hop loop: either the search at the current
term succeeds truthily and the loop records the hop and continues on the
resolved value, or it fails (falsy key or value) and the loop stops. -/
theorem chainLoop_step {P : Type} (findall : P → String → List String)
    (text : String) (pats : Patterns P) (t : String) (m : Nat) :
    (∃ k v, pairOf (searching findall t text pats false) = (some k, some v)
        ∧ k ≠ "" ∧ v ≠ ""
        ∧ chainLoop findall text pats t (m + 1) = (k, v) :: chainLoop findall text pats v m)
    ∨ (failsPair (pairOf (searching findall t text pats false))
        ∧ chainLoop findall text pats t (m + 1) = []) := by
  rcases h : pairOf (searching findall t text pats false) with ⟨k, v⟩
  cases k with
  | none => right; exact ⟨Or.inl rfl, by simp [chainLoop, h]⟩
  | some k =>
    cases v with
    | none => right; exact ⟨Or.inr (Or.inr (Or.inl rfl)), by simp [chainLoop, h]⟩
    | some v =>
      by_cases hk : k = ""
      · right; exact ⟨Or.inr (Or.inl (by simp [hk])), by simp [chainLoop, h, hk]⟩
      · by_cases hv : v = ""
        · right
          exact ⟨Or.inr (Or.inr (Or.inr (by simp [hv]))), by simp [chainLoop, h, hk, hv]⟩
        · left; exact ⟨k, v, rfl, hk, hv, by simp [chainLoop, h, hk, hv]⟩

/-- The hop loop runs at most `n` iterations. -/
theorem chainLoop_length_le {P : Type} (findall : P → String → List String)
    (text : String) (pats : Patterns P) :
    ∀ (n : Nat) (t : String), (chainLoop findall text pats t n).length ≤ n := by
  intro n
  induction n with
  | zero => intro t; simp [chainLoop]
  | succ m ih =>
    intro t
    rcases chainLoop_step findall text pats t m with ⟨k, v, _, _, _, heq⟩ | ⟨_, heq⟩
    · rw [heq]; simpa using ih v
    · rw [heq]; simp

/-- Every recorded hop is the (truthy) result of searching with the current
term: the initial term for hop 0, thereafter the value resolved by the
previous hop. -/
theorem chainLoop_index {P : Type} (findall : P → String → List String)
    (text : String) (pats : Patterns P) :
    ∀ (n : Nat) (t : String) (i : Nat) (p : String × String),
      (chainLoop findall text pats t n)[i]? = some p →
      pairOf (searching findall (termAt t (chainLoop findall text pats t n) i)
          text pats false) = (some p.1, some p.2) ∧ p.1 ≠ "" ∧ p.2 ≠ "" := by
  intro n
  induction n with
  | zero => intro t i p hp; simp [chainLoop] at hp
  | succ m ih =>
    intro t i p hp
    rcases chainLoop_step findall text pats t m with ⟨k, v, hs, hk, hv, heq⟩ | ⟨_, heq⟩
    · rw [heq] at hp ⊢
      cases i with
      | zero =>
        simp only [List.getElem?_cons_zero, Option.some_inj] at hp
        subst hp
        exact ⟨by simpa [termAt] using hs, hk, hv⟩
      | succ j =>
        simp only [List.getElem?_cons_succ] at hp
        rw [termAt_shift]
        exact ih v j p hp
    · rw [heq] at hp; simp at hp

/-- When the loop stopped before exhausting its iteration bound, the search
at the next term fails (falsy key or value). -/
theorem chainLoop_stop {P : Type} (findall : P → String → List String)
    (text : String) (pats : Patterns P) :
    ∀ (n : Nat) (t : String),
      (chainLoop findall text pats t n).length < n →
      failsPair (pairOf (searching findall
        (termAt t (chainLoop findall text pats t n)
          (chainLoop findall text pats t n).length) text pats false)) := by
  intro n
  induction n with
  | zero => intro t h; simp at h
  | succ m ih =>
    intro t h
    rcases chainLoop_step findall text pats t m with ⟨k, v, hs, hk, hv, heq⟩ | ⟨hf, heq⟩
    · rw [heq] at h ⊢
      simp only [List.length_cons] at h ⊢
      rw [termAt_shift]
      exact ih v (Nat.lt_of_succ_lt_succ h)
    · rw [heq]
      simpa [termAt] using hf

/-- C3: for every initial term, text and hop bound `N ≥ 1`, `chained_search`
records the hop list `chainLoop ... N`: in trace mode it returns exactly that
list; the list has at most `N` hops; each hop `i` is the truthy result of
`searching` with the current term (the initial term for hop 0, thereafter the
previously resolved value); when fewer than `N` hops were recorded, the next
search fails (no key or no value, the empty string being falsy); and in
non-trace mode the function returns `(None, None)` when no hop succeeded and
`(initialTerm, lastResolvedValue)` otherwise. -/
theorem chained_search_iterates {P : Type} (findall : P → String → List String)
    (T text : String) (pats : Patterns P) (N : Nat) (hN : 1 ≤ N) :
    chained_search findall T text N true pats
        = ChainOut.chain (chainLoop findall text pats T N)
    ∧ (chainLoop findall text pats T N).length ≤ N
    ∧ (chainLoop findall text pats T N = [] →
        chained_search findall T text N false pats = ChainOut.pair (none, none))
    ∧ (∀ p, (chainLoop findall text pats T N).getLast? = some p →
        chained_search findall T text N false pats = ChainOut.pair (some T, some p.2))
    ∧ (∀ i p, (chainLoop findall text pats T N)[i]? = some p →
        pairOf (searching findall (termAt T (chainLoop findall text pats T N) i)
            text pats false) = (some p.1, some p.2) ∧ p.1 ≠ "" ∧ p.2 ≠ "")
    ∧ ((chainLoop findall text pats T N).length < N →
        failsPair (pairOf (searching findall
          (termAt T (chainLoop findall text pats T N)
            (chainLoop findall text pats T N).length) text pats false))) := by
  have hN0 : N ≠ 0 := Nat.one_le_iff_ne_zero.mp hN
  refine ⟨by simp [chained_search, hN0], chainLoop_length_le findall text pats N T,
    fun h => ?_, fun p hp => ?_, chainLoop_index findall text pats N T,
    chainLoop_stop findall text pats N T⟩
  · simp [chained_search, hN0, h]
  · have hp2 : p.2 ≠ "" := by
      have hidx : (chainLoop findall text pats T N)[(chainLoop findall text pats T N).length - 1]?
          = some p := by
        rw [← List.getLast?_eq_getElem?]
        exact hp
      exact (chainLoop_index findall text pats N T _ p hidx).2.2
    simp [chained_search, hN0, hp, hp2]

/-- C3, witness: one hop on `"total: 45"` resolves the term `"total"` to
`"45"` and non-trace mode returns that pair. -/
theorem chained_search_iterates_witness :
    chained_search noF "total" "total: 45" 1 false none
      = ChainOut.pair (some "total", some "45") := by
  have h := chained_search_iterates noF "total" "total: 45" none 1 (by decide)
  have hlast : (chainLoop noF "total: 45" none "total" 1).getLast? = some ("total", "45") := by
    decide
  exact h.2.2.2.1 ("total", "45") hlast

/-- When the chained search yields a truthy `(key, value)` tuple in non-trace
mode, the per-term body records it, `continue`s, and does not invoke the
table fallback: the result list grows by exactly that one record. -/
theorem processTerm_hit {P : Type} (findall : P → String → List String)
    (env : TableEnv TableT) (folder img text : String) (serial : SerialOut)
    (term : String) (n : Nat) (pats : Patterns P) (results : List ExtractionResult)
    (k v : String)
    (hs : chained_search findall term text n false pats = ChainOut.pair (some k, some v))
    (hk : k ≠ "") (hv : v ≠ "") :
    processTerm findall env folder img text serial term n false pats results
      = (results ++ [⟨img, serial, some (pyLower (pyStrip k)), some v, none⟩], false) := by
  simp [processTerm, hs, hk, hv]

/-- Every fallback invocation logged by the term loop names this document's
image and one of its terms, and comes from a `processTerm` call whose
fallback flag is set. -/
theorem termsLoop_log {P : Type} (findall : P → String → List String)
    (env : TableEnv TableT) (folder img text : String) (serial : SerialOut)
    (n : Nat) (dev : Bool) (pats : Patterns P) :
    ∀ (terms : List String) (results : List ExtractionResult) (p : String × String),
      p ∈ (termsLoop findall env folder img text serial n dev pats terms results).2 →
      p.1 = img ∧ p.2 ∈ terms ∧
      ∃ res, (processTerm findall env folder img text serial p.2 n dev pats res).2 = true := by
  intro terms
  induction terms with
  | nil => intro results p hp; simp [termsLoop] at hp
  | cons term rest ih =>
    intro results p hp
    simp only [termsLoop] at hp
    rcases List.mem_append.mp hp with h1 | h2
    · by_cases hstep :
        (processTerm findall env folder img text serial term n dev pats results).2 = true
      · rw [if_pos hstep] at h1
        simp only [List.mem_singleton] at h1
        subst h1
        exact ⟨rfl, by simp, results, hstep⟩
      · rw [if_neg hstep] at h1
        simp at h1
    · obtain ⟨h2a, h2b, res, h2c⟩ := ih _ p h2
      exact ⟨h2a, List.mem_cons_of_mem _ h2b, res, h2c⟩

/-- Every fallback invocation logged by the document loop comes from some
`(image, text)` pair of the batch and one of the terms, with the fallback
flag set for that call. -/
theorem docsLoop_log {P : Type} (findall : P → String → List String)
    (env : TableEnv TableT) (folder : String) (n : Nat) (dev : Bool)
    (pats : Patterns P) (ss : Bool) (terms : List String) :
    ∀ (pairsL : List (String × String)) (results : List ExtractionResult)
      (p : String × String),
      p ∈ (docsLoop findall env folder n dev pats ss terms pairsL results).2 →
      ∃ text serial res, (p.1, text) ∈ pairsL ∧ p.2 ∈ terms ∧
        (processTerm findall env folder p.1 text serial p.2 n dev pats res).2 = true := by
  intro pairsL
  induction pairsL with
  | nil => intro results p hp; simp [docsLoop] at hp
  | cons it rest ih =>
    obtain ⟨img, text⟩ := it
    intro results p hp
    simp only [docsLoop] at hp
    rcases List.mem_append.mp hp with h1 | h2
    · obtain ⟨ha, hb, res, hc⟩ :=
        termsLoop_log findall env folder img text _ n dev pats terms results p h1
      refine ⟨text,
        if ss = true then serial_number findall text pats false else SerialOut.nothing,
        res, ?_, hb, ?_⟩
      · rw [ha]; exact List.mem_cons_self _ _
      · rw [ha]; exact hc
    · obtain ⟨text', serial', res, hmem, hb, hc⟩ := ih _ p h2
      exact ⟨text', serial', res, List.mem_cons_of_mem _ hmem, hb, hc⟩

/-- In a zip whose first components are distinct, a first component
determines the second. -/
theorem zip_nodup_snd_eq {α β : Type} :
    ∀ (l1 : List α) (l2 : List β) (a : α) (b c : β),
      l1.Nodup → (a, b) ∈ l1.zip l2 → (a, c) ∈ l1.zip l2 → b = c := by
  intro l1
  induction l1 with
  | nil => intro l2 a b c _ h1 _; simp at h1
  | cons x xs ih =>
    intro l2 a b c hnd h1 h2
    cases l2 with
    | nil => simp at h1
    | cons y ys =>
      simp only [List.zip_cons_cons, List.mem_cons] at h1 h2
      rcases h1 with h1 | h1 <;> rcases h2 with h2 | h2
      · obtain ⟨rfl, rfl⟩ := Prod.mk.injEq .. |>.mp h1
        obtain ⟨-, rfl⟩ := Prod.mk.injEq .. |>.mp h2
        rfl
      · obtain ⟨rfl, rfl⟩ := Prod.mk.injEq .. |>.mp h1
        exact absurd (List.of_mem_zip h2).1 (List.nodup_cons.mp hnd).1
      · obtain ⟨rfl, rfl⟩ := Prod.mk.injEq .. |>.mp h2
        exact absurd (List.of_mem_zip h1).1 (List.nodup_cons.mp hnd).1
      · exact ih ys a b c (List.nodup_cons.mp hnd).2 h1 h2

/-- C2, amended (non-trace mode): when the chained search for a term yields a
concrete (truthy) `(key, value)` result, the per-term body records exactly
that result and does not invoke the table fallback, and consequently — for a
batch with distinct image names — `extract_data_from_docs` never invokes
`fallback_table_extraction` for that `(document, term)` pair, hence appends
no table-derived results for it.  (In trace mode the claim fails:
`extract_fallback_trace_cex`.) -/
theorem extract_no_fallback_on_hit {P : Type} (findall : P → String → List String)
    (env : TableEnv TableT) (folder img text : String) (serial : SerialOut)
    (term : String) (n : Nat) (pats : Patterns P) (results : List ExtractionResult)
    (k v : String)
    (hs : chained_search findall term text n false pats = ChainOut.pair (some k, some v))
    (hk : k ≠ "") (hv : v ≠ "") :
    processTerm findall env folder img text serial term n false pats results
      = (results ++ [⟨img, serial, some (pyLower (pyStrip k)), some v, none⟩], false)
    ∧ ∀ (image_names texts : List String) (ss : Bool) (terms : List String),
        image_names.Nodup → (img, text) ∈ image_names.zip texts → term ∈ terms →
        (img, term) ∉
          (extract_data_from_docs findall env image_names texts ss terms
            folder n false pats).2 := by
  refine ⟨processTerm_hit findall env folder img text serial term n pats results k v
    hs hk hv, ?_⟩
  intro names texts ss terms hnd hmem _ hcontra
  obtain ⟨text', serial', res, hmem', -, hsnd⟩ :=
    docsLoop_log findall env folder n false pats ss terms (names.zip texts) []
      (img, term) hcontra
  have htext : text' = text := zip_nodup_snd_eq names texts img text' text hnd hmem' hmem
  rw [htext, processTerm_hit findall env folder img text serial' term n pats res k v
    hs hk hv] at hsnd
  simp at hsnd

/-- C2, witness: non-trace mode on `"total: 45"` records the chained hit and
logs no fallback invocation for the pair. -/
theorem extract_no_fallback_on_hit_witness :
    processTerm noF envEmpty "f" "r.png" "total: 45" .nothing "total" 1 false none []
      = ([⟨"r.png", .nothing, some "total", some "45", none⟩], false)
    ∧ ("r.png", "total") ∉
        (extract_data_from_docs noF envEmpty ["r.png"] ["total: 45"] false ["total"]
          "f" 1 false none).2 := by
  have h := extract_no_fallback_on_hit noF envEmpty "f" "r.png" "total: 45"
    SerialOut.nothing "total" 1 none [] "total" "45" (by decide) (by decide) (by decide)
  refine ⟨?_, h.2 ["r.png"] ["total: 45"] false ["total"] (by decide) (by decide) (by decide)⟩
  have h1 := h.1
  rw [show pyLower (pyStrip "total") = "total" from by decide] at h1
  simpa using h1

/-- C2, counterexample: in trace mode the chained search on `"total: 45"`
yields the recorded hop chain, yet the table fallback is still invoked for
the `(document, term)` pair (the trace branch has no `continue`), refuting
the claim's "in both trace mode and non-trace mode". -/
theorem extract_fallback_trace_cex :
    chained_search noF "total" "total: 45" 1 true none = ChainOut.chain [("total", "45")]
    ∧ extract_data_from_docs noF envEmpty ["r.png"] ["total: 45"] false ["total"]
        "f" 1 true none
      = ([⟨"r.png", .nothing, some "total", some "45", some "total:45"⟩],
         [("r.png", "total")]) :=
  ⟨by decide, by decide⟩
